import Mathlib

/-!
Shallow embedding of `wp_to_org2blog.py` (org2blog importer script).

The script converts a WordPress WXR export into org-mode files.  Text is
modelled as `List Char` (Python `str` as a sequence of code points), the
minidom tree as an inductive `XNode`, the external converter process as a
black-box function from input to an observed process result, the
filesystem as an explicit record of performed writes, and every Python
exception that can escape a modelled function as an `Except PErr` value.
-/

/-- The Python exceptions that the modelled code can raise. -/
inductive PErr where
  /-- `SubprocessError` raised by `html_to_org` (the spec calls it `ConversionError`). -/
  | convError (returncode : Int) (errorStream : Option (List Char)) (input : List Char)
  /-- `AttributeError` (e.g. `element.firstChild.data` on a childless element). -/
  | attributeError
  /-- `ValueError` from `time.strptime` on an unparseable date. -/
  | valueError
  /-- `IndexError` from `link.split('/')[-2]` on a too-short list. -/
  | indexError
  /-- `TypeError` from `os.path.join(name, None)`. -/
  | typeError
  /-- `NameError` from `org_file.close()` when `org_file` was never bound. -/
  | nameError
  deriving DecidableEq, Repr

/-- The observable behaviour of one run of the external converter process:
exit status, output-stream bytes and error-stream bytes. -/
structure ProcResult where
  returncode : Int
  stdout : List Char
  stderr : List Char
  deriving DecidableEq, Repr

/-- Embedding of `html_to_org`.  `run` is the external `pandoc` process as a
black box mapping the bytes fed on its input stream to an observed
`ProcResult`.  `Popen` is created with `stderr=PIPE`, so
`output, error = proc.communicate(html)` binds `error` to the captured
error-stream *bytes* — in the embedding `error := some r.stderr`, which is
never `none` (an empty error stream yields `some []`, i.e. Python `b''`).
The source then tests `(proc.returncode != 0) or (error is not None)`. -/
def html_to_org (run : List Char → ProcResult) (html : List Char) :
    Except PErr (List Char) :=
  let r := run html
  let output := r.stdout
  let error : Option (List Char) := some r.stderr
  if r.returncode ≠ 0 ∨ error ≠ none then
    .error (.convError r.returncode error html)
  else
    .ok output

/-- C1: the claim states that `html_to_org` fails iff the process exits
non-zero or writes to its error stream, and succeeds otherwise.  In the code
the test is `error is not None`, but with `stderr=PIPE` the `communicate`
call returns the error stream as bytes (`b''` when nothing was written),
never `None`; hence the conversion fails on *every* invocation, including a
process that exits with status 0 and an empty error stream.  The first
conjunct proves the unconditional failure; the second evaluates the code at
the concrete failing input (exit status 0, empty stderr, html `<p>hi</p>`),
where the claim demands success with the output-stream content. -/
theorem c1_html_to_org_always_raises :
    (∀ run html, (html_to_org run html).isOk = false) ∧
      html_to_org (fun _ => ⟨0, "converted".toList, []⟩) "<p>hi</p>".toList =
        .error (.convError 0 (some []) "<p>hi</p>".toList) := by
  constructor
  · intro run html
    simp [html_to_org, Except.isOk, Except.toBool]
  · rfl

/-! ## The minidom tree

An XML node is either an element (tag name, attributes, children) or a text
node.  The mutually inductive `XNodes` list keeps every recursion structural
so that all extraction functions evaluate inside the kernel. -/

mutual
inductive XNode where
  | elem (tag : List Char) (attrs : List (List Char × List Char)) (children : XNodes)
  | text (data : List Char)
inductive XNodes where
  | nil
  | cons (hd : XNode) (tl : XNodes)
end

/-- Embedding of `Element.getAttribute`: the attribute value, or the empty
string when the attribute is absent. -/
def XNode.getAttribute (n : XNode) (key : List Char) : List Char :=
  match n with
  | .elem _ attrs _ => (attrs.lookup key).getD []
  | .text _ => []

/-- The children of an element node (a text node has none). -/
def XNode.kids : XNode → XNodes
  | .elem _ _ cs => cs
  | .text _ => .nil

/-- Embedding of `node.firstChild.data`: `some` of the data of the first
child when that child is a text node; `none` when the node has no children
or its first child is an element (both read as an `AttributeError` at the
call sites). -/
def XNode.firstChildData : XNode → Option (List Char)
  | .elem _ _ (.cons (.text d) _) => some d
  | _ => none

mutual
/-- Embedding of `node.getElementsByTagName(tag)`: all descendant elements
with the given tag name, in document (preorder) order; the node itself is
not a candidate. -/
def XNode.getElementsByTagName (n : XNode) (tag : List Char) : List XNode :=
  match n with
  | .text _ => []
  | .elem _ _ cs => XNodes.elemsByTag cs tag
/-- `getElementsByTagName` over a child list. -/
def XNodes.elemsByTag (ns : XNodes) (tag : List Char) : List XNode :=
  match ns with
  | .nil => []
  | .cons c tl =>
    (match c with
     | .elem t _ _ => (if t = tag then [c] else []) ++ c.getElementsByTagName tag
     | .text _ => []) ++ XNodes.elemsByTag tl tag
end

/-- Embedding of `get_first_child_data`:
`node.getElementsByTagName(tag_name)[0].firstChild.data` with
`AttributeError` and `IndexError` mapped to `None`. -/
def get_first_child_data (node : XNode) (tag_name : List Char) : Option (List Char) :=
  match node.getElementsByTagName tag_name with
  | [] => none
  | el :: _ => el.firstChildData

/-! ## The body-text pipeline of `node_to_post`

`post['text']`, when non-null, is sent through
`replace('\r\n', '\n')`, `replace('\n', '#$NEWLINE-MARKER$#')`, the
converter, and `replace('#$NEWLINE-MARKER$#', '\n')`.  Each `str.replace`
scans left to right, non-overlapping, and never rescans the replacement it
just emitted; the three instances below follow that discipline. -/

/-- Embedding of the Python substring test `pat in s` (contiguous
occurrence anywhere, the empty pattern occurring in every string). -/
def strIn (pat : List Char) : List Char → Bool
  | [] => pat.isEmpty
  | c :: cs => pat.isPrefixOf (c :: cs) || strIn pat cs

/-- The sentinel marker `#$NEWLINE-MARKER$#` as a character list. -/
def markerL : List Char := "#$NEWLINE-MARKER$#".toList

/-- Embedding of `text.replace('\r\n', '\n')`. -/
def normalizeCRLF : List Char → List Char
  | [] => []
  | [c] => [c]
  | c1 :: c2 :: cs =>
    if c1 = '\r' ∧ c2 = '\n' then '\n' :: normalizeCRLF cs
    else c1 :: normalizeCRLF (c2 :: cs)

/-- Embedding of `text.replace('\n', '#$NEWLINE-MARKER$#')`. -/
def encodeNl : List Char → List Char
  | [] => []
  | c :: cs => if c = '\n' then markerL ++ encodeNl cs else c :: encodeNl cs

/-- Worker for `text.replace('#$NEWLINE-MARKER$#', '\n')`: left-to-right
scan consuming a whole marker occurrence (18 characters) at a match.  The
`Nat` fuel makes the recursion structural; it is initialised to the length
of the scanned list, which the scan never exceeds. -/
def decodeGo : Nat → List Char → List Char
  | _, [] => []
  | 0, s => s
  | f + 1, c :: cs =>
    if markerL.isPrefixOf (c :: cs) then
      '\n' :: decodeGo f (cs.drop (markerL.length - 1))
    else
      c :: decodeGo f cs

/-- Embedding of `text.replace('#$NEWLINE-MARKER$#', '\n')`. -/
def decodeMarker (s : List Char) : List Char :=
  decodeGo s.length s

/-- The body-text step of `node_to_post` for a non-null body `t`, with the
converter boundary `conv` standing for `html_to_org` as a black box (the
encode to UTF-8 bytes and back is the identity on the modelled text). -/
def convertBody (conv : List Char → Except PErr (List Char)) (t : List Char) :
    Except PErr (List Char) := do
  let marked := encodeNl (normalizeCRLF t)
  let converted ← conv marked
  pure (decodeMarker converted)

/-! ## Post records and extraction -/

/-- The dictionary `node_to_post` builds for one `item` element.  Scalar
fields are `Option` values (`None` for an absent or empty tag); `text` is
always a plain string after extraction. -/
structure Post where
  title : Option (List Char)
  link : Option (List Char)
  date : Option (List Char)
  author : Option (List Char)
  id : Option (List Char)
  post_name : Option (List Char)
  text : List Char
  tags : List (List Char)
  categories : List (List Char)
  deriving DecidableEq, Repr

/-- Embedding of the `for element in node.getElementsByTagName('category')`
loop of `node_to_post`.  An element with a non-empty `nicename`, a
non-empty `domain` and `'tag' in domain or 'category' in domain` has its
`firstChild.data` appended to the tags bucket when `'tag' in domain`, else
to the categories bucket; `element.firstChild.data` on an element without a
leading text child raises an uncaught `AttributeError`.  Elements failing
the attribute test are skipped. -/
def collectCategories : List XNode → Except PErr (List (List Char) × List (List Char))
  | [] => .ok ([], [])
  | el :: rest =>
    let domain := el.getAttribute "domain".toList
    let name := el.getAttribute "nicename".toList
    if name ≠ [] ∧ domain ≠ [] ∧
        (strIn "tag".toList domain = true ∨ strIn "category".toList domain = true) then
      match el.firstChildData with
      | none => .error .attributeError
      | some label => do
        let (ts, cs) ← collectCategories rest
        if strIn "tag".toList domain then .ok (label :: ts, cs)
        else .ok (ts, label :: cs)
    else collectCategories rest

/-- Embedding of `node_to_post`.  Scalar fields are read with
`get_first_child_data` by tag name; the body is converted through the
marker pipeline when non-null and becomes the empty string otherwise; the
`category` children fill `tags`/`categories`.  `idLogCheck` is the
progress-logging block `try: if int(post['id']) % 10 == 0 ... except
ValueError`: the `try` catches only `ValueError`, so a string id —
numeric or not — merely produces a log line, but a missing or empty
`wp:post_id` leaves `post['id']` as `None` and `int(None)` raises an
uncaught `TypeError` that aborts the extraction before the body
conversion and the category loop.  `bodyField` is the `post['text']`
step: the marker pipeline when the body is non-null, the empty string
otherwise. -/
def bodyField (conv : List Char → Except PErr (List Char)) (node : XNode) :
    Except PErr (List Char) :=
  match get_first_child_data node "content:encoded".toList with
  | some t => convertBody conv t
  | none => pure []

/-- The `int(post['id'])` progress check: `TypeError` on `None`, a caught
`ValueError` or a log line otherwise. -/
def idLogCheck : Option (List Char) → Except PErr Unit
  | none => .error .typeError
  | some _ => .ok ()

/-- Embedding of `node_to_post` (see `bodyField` for the body step). -/
def node_to_post (conv : List Char → Except PErr (List Char)) (node : XNode) :
    Except PErr Post := do
  let title := get_first_child_data node "title".toList
  let link := get_first_child_data node "link".toList
  let date := get_first_child_data node "pubDate".toList
  let author := get_first_child_data node "dc:creator".toList
  let id := get_first_child_data node "wp:post_id".toList
  let post_name := get_first_child_data node "wp:post_name".toList
  let () ← idLogCheck id
  let text ← bodyField conv node
  let (tags, categories) ← collectCategories (node.getElementsByTagName "category".toList)
  pure { title, link, date, author, id, post_name, text, tags, categories }

/-- Embedding of `sorted(set(xs))` on Python strings: de-duplicate, then
sort in ascending lexicographic (code point) order.  Insertion sort agrees
extensionally with any sort here because the order on `List Char` is linear
and the input is duplicate-free. -/
def sortedSet (l : List (List Char)) : List (List Char) :=
  l.dedup.insertionSort (· ≤ ·)

/-- Embedding of the loop body of `xml_to_list` over the document's `item`
nodes: build each post, then replace its tag/category collections with
their de-duplicated sorted forms, preserving document order. -/
def itemsToList (conv : List Char → Except PErr (List Char)) :
    List XNode → Except PErr (List Post)
  | [] => .ok []
  | n :: ns => do
    let p ← node_to_post conv n
    let rest ← itemsToList conv ns
    .ok ({ p with tags := sortedSet p.tags, categories := sortedSet p.categories } :: rest)

/-- Embedding of `xml_to_list`: all `item` elements of the parsed document,
each converted by `node_to_post` and post-processed with `sorted(set(...))`
on `tags` and `categories`. -/
def xml_to_list (conv : List Char → Except PErr (List Char)) (dom : XNode) :
    Except PErr (List Post) :=
  itemsToList conv (dom.getElementsByTagName "item".toList)

/-! ## C2: tags and categories are duplicate-free and sorted -/

/-- Reduction of a successful `Except` bind. -/
@[simp] theorem exceptBind_ok {α β ε : Type} (a : α) (f : α → Except ε β) :
    (Except.ok a >>= f) = f a := rfl

/-- Reduction of a failed `Except` bind. -/
@[simp] theorem exceptBind_error {α β ε : Type} (e : ε) (f : α → Except ε β) :
    ((Except.error e : Except ε α) >>= f) = .error e := rfl

/-- `sorted(set(xs))` yields a strictly increasing list. -/
theorem sortedSet_pairwise_lt (l : List (List Char)) :
    (sortedSet l).Pairwise (· < ·) := by
  have hs : (sortedSet l).Sorted (· ≤ ·) := List.sorted_insertionSort _ _
  have hn : (sortedSet l).Nodup :=
    (List.perm_insertionSort _ _).nodup_iff.mpr (List.nodup_dedup l)
  exact hs.lt_of_le hn

/-- Every post an `itemsToList` run returns carries `sorted(set(...))`
tag and category lists. -/
theorem itemsToList_sorted (conv : List Char → Except PErr (List Char)) :
    ∀ (items : List XNode) (blog : List Post),
      itemsToList conv items = .ok blog →
      ∀ p ∈ blog, p.tags.Pairwise (· < ·) ∧ p.categories.Pairwise (· < ·) := by
  intro items
  induction items with
  | nil =>
    intro blog h p hp
    simp only [itemsToList] at h
    cases h
    cases hp
  | cons n ns ih =>
    intro blog h p hp
    simp only [itemsToList] at h
    cases hn : node_to_post conv n with
    | error e => rw [hn] at h; cases h
    | ok q =>
      rw [hn] at h
      cases hr : itemsToList conv ns with
      | error e => rw [hr] at h; cases h
      | ok rest =>
        rw [hr] at h
        simp only [exceptBind_ok, Except.ok.injEq] at h
        subst h
        rcases List.mem_cons.mp hp with hhd | htl
        · subst hhd
          exact ⟨sortedSet_pairwise_lt _, sortedSet_pairwise_lt _⟩
        · exact ih rest hr p htl

/-- C2: for every item element of the document, the `tags` and
`categories` of the post record `xml_to_list` produces contain no
duplicate labels and are in ascending lexicographic order (here: strictly
increasing in the code point lexicographic order, which packages both),
regardless of the order or duplication of `category` children. -/
theorem c2_tags_categories_sorted_nodup
    (conv : List Char → Except PErr (List Char)) (dom : XNode) (blog : List Post)
    (h : xml_to_list conv dom = .ok blog) :
    ∀ p ∈ blog, p.tags.Pairwise (· < ·) ∧ p.categories.Pairwise (· < ·) :=
  itemsToList_sorted conv _ blog h

/-- A `category` element with attributes and a text child, for tests. -/
def catNode (domain nicename label : List Char) : XNode :=
  .elem "category".toList
    [("domain".toList, domain), ("nicename".toList, nicename)]
    (.cons (.text label) .nil)

/-- A `wp:post_id` element carrying the id `7`, for tests: an item
without one aborts extraction at `int(None)` (see `idLogCheck`). -/
def wpIdNode : XNode :=
  .elem "wp:post_id".toList [] (.cons (.text "7".toList) .nil)

/-- A document with one item whose categories arrive unsorted and with a
duplicate: tags `b`, `a`, `b` and one category `z`. -/
def c2Doc : XNode :=
  .elem "rss".toList []
    (.cons
      (.elem "item".toList []
        (.cons wpIdNode
          (.cons (catNode "post_tag".toList "b".toList "b".toList)
            (.cons (catNode "post_tag".toList "a".toList "a".toList)
              (.cons (catNode "post_tag".toList "b".toList "b".toList)
                (.cons (catNode "category".toList "z".toList "z".toList) .nil))))))
      .nil)

/-- The post record `xml_to_list` produces for `c2Doc`. -/
def c2Post : Post :=
  { title := none, link := none, date := none, author := none, id := some "7".toList
    post_name := none, text := []
    tags := ["a".toList, "b".toList], categories := ["z".toList] }

/-- Witness for C2: a run of `xml_to_list` on `c2Doc` with an identity
converter returns exactly `[c2Post]`, and the theorem instantiated there
yields sortedness and freedom from duplicates of its tags `[a, b]` and
categories `[z]`. -/
theorem c2_tags_categories_sorted_nodup_witness :
    c2Post.tags.Pairwise (· < ·) ∧ c2Post.categories.Pairwise (· < ·) :=
  c2_tags_categories_sorted_nodup (fun s => .ok s) c2Doc [c2Post] (by rfl)
    c2Post (List.mem_singleton.mpr rfl)

/-! ## C8: the text field is never null, absence maps to empty string -/

/-- Reduction of `pure` in `Except`. -/
@[simp] theorem exceptPure_eq_ok {α ε : Type} (a : α) :
    (pure a : Except ε α) = .ok a := rfl

/-- C8: when the content-namespaced body tag is absent or empty
(`get_first_child_data` returns `None`), the `text` field of the record
`node_to_post` produces is the empty string.  That the field is a string
and never null is carried by the embedding type itself: `Post.text` is a
plain `List Char`, not an `Option`, because the `else` branch of the
source assigns `''`. -/
theorem c8_text_absent_becomes_empty
    (conv : List Char → Except PErr (List Char)) (node : XNode) (r : Post)
    (habs : get_first_child_data node "content:encoded".toList = none)
    (h : node_to_post conv node = .ok r) :
    r.text = [] := by
  cases hid : get_first_child_data node "wp:post_id".toList with
  | none =>
    simp only [node_to_post, hid, idLogCheck, exceptBind_error] at h
    cases h
  | some i =>
    simp only [node_to_post, hid, idLogCheck, bodyField, habs, exceptPure_eq_ok,
      exceptBind_ok] at h
    cases hc : collectCategories (node.getElementsByTagName "category".toList) with
    | error e => rw [hc] at h; cases h
    | ok tc =>
      rw [hc] at h
      obtain ⟨tags, cats⟩ := tc
      simp only [exceptBind_ok, exceptPure_eq_ok, Except.ok.injEq] at h
      subst h
      rfl

/-- Witness node for C8: an item with an id, no body tag, no categories. -/
def c8Node : XNode := .elem "item".toList [] (.cons wpIdNode .nil)

/-- Witness for C8: `node_to_post` on `c8Node` succeeds and the theorem
applied to that run gives `text = ""`. -/
theorem c8_text_absent_becomes_empty_witness :
    ({ title := none, link := none, date := none, author := none, id := some "7".toList
       post_name := none, text := [], tags := [], categories := [] } : Post).text = [] :=
  c8_text_absent_becomes_empty (fun s => .ok s) c8Node _ rfl rfl

/-! ## C9: a matching category element without a text child aborts extraction -/

/-- The configuration the claim describes: a `category` element with a
non-empty `nicename` attribute, a `domain` attribute containing `tag` or
`category`, and no children at all. -/
def isTriggerCat (el : XNode) : Prop :=
  el.getAttribute "nicename".toList ≠ [] ∧
  el.getAttribute "domain".toList ≠ [] ∧
  (strIn "tag".toList (el.getAttribute "domain".toList) = true ∨
    strIn "category".toList (el.getAttribute "domain".toList) = true) ∧
  el.kids = .nil

/-- A childless node has no `firstChild.data`. -/
theorem firstChildData_of_kids_nil {el : XNode} (h : el.kids = .nil) :
    el.firstChildData = none := by
  cases el with
  | text d => rfl
  | elem t a cs =>
    simp only [XNode.kids] at h
    subst h
    rfl

/-- If some element of the list is in the trigger configuration, the
category loop raises `AttributeError`. -/
theorem collectCategories_error_of_trigger :
    ∀ (cats : List XNode), (∃ el ∈ cats, isTriggerCat el) →
      collectCategories cats = .error .attributeError := by
  intro cats
  induction cats with
  | nil => rintro ⟨el, hel, _⟩; cases hel
  | cons e rest ih =>
    rintro ⟨el, hel, htrig⟩
    by_cases hcond : e.getAttribute "nicename".toList ≠ [] ∧
        e.getAttribute "domain".toList ≠ [] ∧
        (strIn "tag".toList (e.getAttribute "domain".toList) = true ∨
          strIn "category".toList (e.getAttribute "domain".toList) = true)
    · cases hfc : e.firstChildData with
      | none =>
        simp only [collectCategories, if_pos hcond, hfc]
      | some label =>
        have heltl : el ∈ rest := by
          rcases List.mem_cons.mp hel with rfl | htl
          · exact absurd (firstChildData_of_kids_nil htrig.2.2.2) (by rw [hfc]; simp)
          · exact htl
        have hrest := ih ⟨el, heltl, htrig⟩
        simp only [collectCategories, if_pos hcond, hfc, hrest, exceptBind_error]
    · have heltl : el ∈ rest := by
        rcases List.mem_cons.mp hel with rfl | htl
        · exact absurd ⟨htrig.1, htrig.2.1, htrig.2.2.1⟩ hcond
        · exact htl
      simp only [collectCategories, if_neg hcond]
      exact ih ⟨el, heltl, htrig⟩

/-- C9: during extraction, a `category` child element with a non-empty
`nicename` attribute and a `domain` attribute containing `tag` or
`category` but with no child text node makes `node_to_post` raise an
uncaught `AttributeError` (reading `firstChild.data` of a childless
element) instead of ignoring the element; `xml_to_list` propagates the
error, so the whole run aborts.  The `hid` hypothesis says the item has a
`wp:post_id` (otherwise `int(None)` aborts with `TypeError` before the
category loop runs) and the `htext` hypothesis that the body-conversion
step did not already abort. -/
theorem c9_trigger_category_raises_attribute_error
    (conv : List Char → Except PErr (List Char)) (node : XNode)
    (hid : ∃ i, get_first_child_data node "wp:post_id".toList = some i)
    (htext : ∃ t, bodyField conv node = .ok t)
    (htrig : ∃ el ∈ node.getElementsByTagName "category".toList, isTriggerCat el) :
    node_to_post conv node = .error .attributeError := by
  obtain ⟨i, hi⟩ := hid
  obtain ⟨t, ht⟩ := htext
  have hcats := collectCategories_error_of_trigger _ htrig
  simp only [node_to_post, hi, idLogCheck, ht, hcats, exceptBind_ok, exceptBind_error]

/-- Witness category element for C9: matching attributes, no children. -/
def c9BadCat : XNode :=
  .elem "category".toList
    [("domain".toList, "post_tag".toList), ("nicename".toList, "x".toList)] .nil

/-- Witness item for C9: carries an id, so extraction reaches the
category loop. -/
def c9Node : XNode := .elem "item".toList [] (.cons wpIdNode (.cons c9BadCat .nil))

/-- Witness for C9: on `c9Node` the extraction aborts with
`AttributeError`. -/
theorem c9_trigger_category_raises_attribute_error_witness :
    node_to_post (fun s => .ok s) c9Node = .error .attributeError :=
  c9_trigger_category_raises_attribute_error (fun s => .ok s) c9Node
    ⟨"7".toList, rfl⟩
    ⟨[], rfl⟩
    ⟨c9BadCat, show c9BadCat ∈ [c9BadCat] from List.mem_singleton.mpr rfl,
      by decide, by decide, Or.inl (by decide), rfl⟩

/-! ## C5: the marker pipeline preserves the newlines of the body -/

/-- The sentinel marker without its leading `#`. -/
def markerTail : List Char := "$NEWLINE-MARKER$#".toList

/-- The marker is `#` followed by `markerTail`. -/
theorem markerL_eq_cons : markerL = '#' :: markerTail := by decide

/-- A list is a `isPrefixOf` of itself followed by anything. -/
theorem isPrefixOf_append_self (p s : List Char) : p.isPrefixOf (p ++ s) = true := by
  induction p with
  | nil => simp [List.isPrefixOf]
  | cons c cs ih => simp [List.isPrefixOf, ih]

/-- The marker is not a prefix of a list starting with a character other
than `#`. -/
theorem markerL_not_prefix_of_ne {c : Char} (s : List Char) (hc : c ≠ '#') :
    markerL.isPrefixOf (c :: s) = false := by
  rw [markerL_eq_cons]
  simp only [List.isPrefixOf, Bool.and_eq_false_imp]
  intro hbe
  exact absurd (beq_iff_eq.mp hbe).symm hc

/-- The marker without its trailing `#` (17 characters): the text whose
absence from a body makes the greedy decode scan find exactly the
inserted markers. -/
def markerHead : List Char := "#$NEWLINE-MARKER$".toList

/-- The marker head without its leading `#` (16 characters, none of which
is `#` or a newline). -/
def markerMid : List Char := "$NEWLINE-MARKER$".toList

/-- A prefix of a prefix: `x ++ y` a prefix of `s` makes `x` one too. -/
theorem isPrefixOf_of_append (x y s : List Char)
    (h : (x ++ y).isPrefixOf s = true) : x.isPrefixOf s = true := by
  induction x generalizing s with
  | nil => simp [List.isPrefixOf]
  | cons a x2 ih =>
    cases s with
    | nil => simp [List.isPrefixOf, List.cons_append] at h
    | cons b s2 =>
      rw [List.cons_append] at h
      simp only [List.isPrefixOf, Bool.and_eq_true] at h ⊢
      exact ⟨h.1, ih s2 h.2⟩

/-- A pattern containing neither `\n` nor `#` that prefixes the
marker-encoded form of a text also prefixes the text itself (the encoding
rewrites only newlines, and every inserted marker begins with `#`). -/
theorem isPrefixOf_encodeNl_transfer (p : List Char)
    (hp : ∀ a ∈ p, a ≠ '\n' ∧ a ≠ '#') :
    ∀ cs, p.isPrefixOf (encodeNl cs) = true → p.isPrefixOf cs = true := by
  induction p with
  | nil => intro cs _; simp [List.isPrefixOf]
  | cons a p2 ih =>
    intro cs h
    obtain ⟨hanl, hahash⟩ := hp a (List.mem_cons_self a p2)
    cases cs with
    | nil => simp [encodeNl, List.isPrefixOf] at h
    | cons c cs2 =>
      by_cases hc : c = '\n'
      · subst hc
        rw [show encodeNl ('\n' :: cs2) = markerL ++ encodeNl cs2 by simp [encodeNl],
          markerL_eq_cons, List.cons_append] at h
        simp only [List.isPrefixOf, Bool.and_eq_true, beq_iff_eq] at h
        exact absurd h.1 hahash
      · rw [show encodeNl (c :: cs2) = c :: encodeNl cs2 by simp [encodeNl, hc]] at h
        simp only [List.isPrefixOf, Bool.and_eq_true] at h ⊢
        exact ⟨h.1, ih (fun b hb => hp b (List.mem_cons_of_mem a hb)) cs2 h.2⟩

/-- If the full marker prefixes `#` followed by the encoded rest, the
marker head already occurred in the un-encoded text at that position. -/
theorem markerL_prefix_encode_imp (cs : List Char)
    (h : markerL.isPrefixOf ('#' :: encodeNl cs) = true) :
    markerHead.isPrefixOf ('#' :: cs) = true := by
  rw [markerL_eq_cons] at h
  simp only [List.isPrefixOf, Bool.and_eq_true, beq_iff_eq] at h
  have h2 : markerMid.isPrefixOf (encodeNl cs) = true := by
    have h17 := h.2
    rw [show markerTail = markerMid ++ ['#'] from by decide] at h17
    exact isPrefixOf_of_append markerMid ['#'] _ h17
  have h3 : markerMid.isPrefixOf cs = true :=
    isPrefixOf_encodeNl_transfer markerMid (by decide) cs h2
  rw [show markerHead = '#' :: markerMid from by decide]
  simp [List.isPrefixOf, h3]

/-- Core of the round trip: decoding the marker-encoded form of a text
that does not contain the marker-head text `#$NEWLINE-MARKER$` restores
the text exactly, for any sufficient fuel.  (Some such condition is
forced: the marker begins and ends with `#`, so a text segment ending in
the marker head makes the greedy scan consume a misaligned occurrence —
e.g. the body `#$NEWLINE-MARKER$` followed by a newline decodes to a
newline followed by `$NEWLINE-MARKER$#`.) -/
theorem decodeGo_encodeNl (t : List Char) (hfree : strIn markerHead t = false) :
    ∀ f, (encodeNl t).length ≤ f → decodeGo f (encodeNl t) = t := by
  induction t with
  | nil =>
    intro f _
    cases f <;> rfl
  | cons c cs ih =>
    have hsplit : markerHead.isPrefixOf (c :: cs) = false ∧
        strIn markerHead cs = false := by
      simpa [strIn, Bool.or_eq_false_iff] using hfree
    intro f hf
    by_cases hnl : c = '\n'
    · subst hnl
      rw [show encodeNl ('\n' :: cs) = markerL ++ encodeNl cs by simp [encodeNl]] at hf ⊢
      cases f with
      | zero =>
        exfalso
        rw [List.length_append, show markerL.length = 18 from by decide] at hf
        omega
      | succ f =>
        have hpre : markerL.isPrefixOf ('#' :: (markerTail ++ encodeNl cs)) = true := by
          rw [← List.cons_append, ← markerL_eq_cons]
          exact isPrefixOf_append_self markerL (encodeNl cs)
        have hlen : (encodeNl cs).length ≤ f := by
          rw [List.length_append, show markerL.length = 18 from by decide] at hf
          omega
        calc decodeGo (f + 1) (markerL ++ encodeNl cs)
            = decodeGo (f + 1) ('#' :: (markerTail ++ encodeNl cs)) := by
              rw [markerL_eq_cons, List.cons_append]
          _ = '\n' :: decodeGo f ((markerTail ++ encodeNl cs).drop (markerL.length - 1)) := by
              rw [decodeGo, if_pos hpre]
          _ = '\n' :: decodeGo f (encodeNl cs) := by
              rw [show markerL.length - 1 = markerTail.length from by decide, List.drop_left]
          _ = '\n' :: cs := by rw [ih hsplit.2 f hlen]
    · rw [show encodeNl (c :: cs) = c :: encodeNl cs by simp [encodeNl, hnl]] at hf ⊢
      cases f with
      | zero =>
        exfalso
        rw [List.length_cons] at hf
        omega
      | succ f =>
        have hnp : markerL.isPrefixOf (c :: encodeNl cs) = false := by
          by_cases hch : c = '#'
          · subst hch
            cases hb : markerL.isPrefixOf ('#' :: encodeNl cs) with
            | false => rfl
            | true =>
              exfalso
              have hmh := markerL_prefix_encode_imp cs hb
              rw [hsplit.1] at hmh
              exact Bool.false_ne_true hmh
          · exact markerL_not_prefix_of_ne (encodeNl cs) hch
        rw [decodeGo, if_neg (by rw [hnp]; exact Bool.false_ne_true)]
        have hlen : (encodeNl cs).length ≤ f := by
          rw [List.length_cons] at hf
          omega
        rw [ih hsplit.2 f hlen]

/-- The marker round trip restores any text not containing the
marker-head text. -/
theorem decodeMarker_encodeNl (t : List Char) (hfree : strIn markerHead t = false) :
    decodeMarker (encodeNl t) = t :=
  decodeGo_encodeNl t hfree _ le_rfl

/-- The text field of a successful `node_to_post` run is whatever the body
step produced. -/
theorem node_to_post_text_eq
    (conv : List Char → Except PErr (List Char)) (node : XNode) (r : Post)
    (tx : List Char) (hbf : bodyField conv node = .ok tx)
    (hok : node_to_post conv node = .ok r) : r.text = tx := by
  cases hid : get_first_child_data node "wp:post_id".toList with
  | none =>
    simp only [node_to_post, hid, idLogCheck, exceptBind_error] at hok
    cases hok
  | some i =>
    simp only [node_to_post, hid, idLogCheck, hbf, exceptBind_ok] at hok
    cases hc : collectCategories (node.getElementsByTagName "category".toList) with
    | error e => rw [hc] at hok; cases hok
    | ok tc =>
      rw [hc] at hok
      obtain ⟨tags, cats⟩ := tc
      simp only [exceptBind_ok, exceptPure_eq_ok, Except.ok.injEq] at hok
      subst hok
      rfl

/-- C5: `node_to_post` normalizes `\r\n` to `\n`, replaces every `\n`
with the sentinel `#$NEWLINE-MARKER$#` before invoking the converter, and
replaces the marker with `\n` afterwards (this is the definition of
`bodyField`/`convertBody`/`normalizeCRLF`/`encodeNl`/`decodeMarker`).
Consequently, when the converter returns the marker text unchanged, the
literal newlines of the normalized body reappear in the `text` field: the
round trip is the identity, stated for bodies whose normalized form does
not contain the sentinel text `#$NEWLINE-MARKER$` itself (bodies with
ordinary `#` characters are covered; one containing the sentinel text
would gain extra or displaced newlines, see `decodeGo_encodeNl`). -/
theorem c5_marker_pipeline_preserves_newlines
    (conv : List Char → Except PErr (List Char)) (node : XNode)
    (t : List Char) (r : Post)
    (hbody : get_first_child_data node "content:encoded".toList = some t)
    (hfree : strIn markerHead (normalizeCRLF t) = false)
    (hconv : conv (encodeNl (normalizeCRLF t)) = .ok (encodeNl (normalizeCRLF t)))
    (hok : node_to_post conv node = .ok r) :
    r.text = normalizeCRLF t := by
  have hbf : bodyField conv node = .ok (normalizeCRLF t) := by
    simp only [bodyField, hbody, convertBody, hconv, exceptBind_ok]
    rw [decodeMarker_encodeNl _ hfree]
    rfl
  exact node_to_post_text_eq conv node r _ hbf hok

/-- Witness body for C5: `#` characters (an HTML entity and a fragment),
a `\r\n` and a bare `\n`. -/
def c5Body : List Char := "a&#35;b\r\nc\nd#e".toList

/-- Witness item for C5: an id and a body. -/
def c5Node : XNode :=
  .elem "item".toList []
    (.cons wpIdNode
      (.cons (.elem "content:encoded".toList [] (.cons (.text c5Body) .nil)) .nil))

/-- Witness for C5: with an identity converter the extracted text of
`c5Node` is the normalized body `a&#35;b\nc\nd#e`. -/
theorem c5_marker_pipeline_preserves_newlines_witness :
    ({ title := none, link := none, date := none, author := none, id := some "7".toList
       post_name := none, text := "a&#35;b\nc\nd#e".toList
       tags := [], categories := [] } : Post).text
      = normalizeCRLF c5Body :=
  c5_marker_pipeline_preserves_newlines (fun s => .ok s) c5Node c5Body _
    rfl (by decide) rfl rfl

/-! ## C3: combined-mode reindentation of the body text

In `blog_to_org`, combined mode runs
`post['text'].replace('\n', '\n %s' % space)` with `space = ' ' * level`:
the replacement string is a newline, the literal space of the format
string, and then `level` more spaces — `level + 1` spaces after every
newline.  The body line of `SUBTREE_TEMPLATE` is `%(space)s %(text)s`,
again `level` spaces plus a literal one. -/

/-- Embedding of `text.replace('\n', '\n %s' % space)` for
`space = ' ' * level`. -/
def reindentNl (level : Nat) : List Char → List Char
  | [] => []
  | c :: cs =>
    if c = '\n' then '\n' :: ' ' :: (List.replicate level ' ' ++ reindentNl level cs)
    else c :: reindentNl level cs

/-- Helper for splitting: push a character onto the first group. -/
def consHead (c : Char) : List (List Char) → List (List Char)
  | [] => [[c]]
  | g :: gs => (c :: g) :: gs

/-- Split a text into its newline-separated lines (Python
`text.split('\n')`: empty lines are kept, a trailing newline yields a
trailing empty line). -/
def splitNl : List Char → List (List Char)
  | [] => [[]]
  | c :: cs => if c = '\n' then [] :: splitNl cs else consHead c (splitNl cs)

/-- Join lines with a separator (Python `sep.join(lines)`). -/
def joinLines (sep : List Char) : List (List Char) → List Char
  | [] => []
  | [g] => g
  | g :: g2 :: gs => g ++ sep ++ joinLines sep (g2 :: gs)

/-- `splitNl` never returns the empty list of groups. -/
theorem splitNl_ne_nil (t : List Char) : splitNl t ≠ [] := by
  cases t with
  | nil => simp [splitNl]
  | cons c cs =>
    simp only [splitNl]
    split
    · simp
    · cases h : splitNl cs with
      | nil => simp [consHead]
      | cons g gs => simp [consHead]

/-- Joining after `consHead` prepends the character to the joined text. -/
theorem joinLines_consHead (sep : List Char) (c : Char) (L : List (List Char))
    (hL : L ≠ []) : joinLines sep (consHead c L) = c :: joinLines sep L := by
  cases L with
  | nil => exact absurd rfl hL
  | cons g gs =>
    cases gs with
    | nil => rfl
    | cons g2 gs2 => simp [consHead, joinLines]

/-- Embedding of `SUBTREE_TEMPLATE % parts`: heading with stars, title
and tag string; the properties drawer, every drawer line opening with
`space` plus one literal space; a blank line; then the body line `space`,
a literal space and the text; then a blank line. -/
def subtreeTemplate (level : Nat) (title tags id date categories text : List Char) :
    List Char :=
  List.replicate level '*' ++ " ".toList ++ title ++ " ".toList ++ tags ++ "\n".toList ++
  List.replicate level ' ' ++ " :PROPERTIES:\n".toList ++
  List.replicate level ' ' ++ " :POSTID: ".toList ++ id ++ "\n".toList ++
  List.replicate level ' ' ++ " :POST_DATE: ".toList ++ date ++ "\n".toList ++
  List.replicate level ' ' ++ " :CATEGORY: ".toList ++ categories ++ "\n".toList ++
  List.replicate level ' ' ++ " :END:\n\n".toList ++
  List.replicate level ' ' ++ " ".toList ++ text ++ "\n\n".toList

/-- C3 counterexample: the claim says that in combined mode every newline
of `text` is followed by exactly `indentLevel` space characters.  At
`indentLevel = 1` and text `a\nb` that demands `a\n b` (one space); the
code rewrites the text to `a\n  b` — two spaces, because the replacement
`'\n %s' % space` contains a literal space in addition to
`' ' * indentLevel`. -/
theorem c3_counterexample_reindent :
    reindentNl 1 "a\nb".toList = "a\n  b".toList ∧
      ("a\n  b".toList == "a\n b".toList) = false := by
  constructor
  · decide
  · decide

/-- C3 as amended: combined mode rewrites `text` so that every newline is
followed by exactly `indentLevel + 1` spaces — the reflow equals splitting
the text on newlines and rejoining with newline plus `indentLevel + 1`
spaces — and the body line of the rendered subtree likewise carries
`indentLevel + 1` spaces (the `space` string plus the template's literal
separator space) before the reflowed text. -/
theorem c3_reindent_level_plus_one_spaces
    (level : Nat) (t title tags id date categories : List Char) :
    reindentNl level t =
      joinLines ('\n' :: List.replicate (level + 1) ' ') (splitNl t) ∧
    ∃ pre, subtreeTemplate level title tags id date categories (reindentNl level t) =
      pre ++ List.replicate (level + 1) ' ' ++ reindentNl level t ++ "\n\n".toList := by
  constructor
  · induction t with
    | nil => rfl
    | cons c cs ih =>
      by_cases hc : c = '\n'
      · subst hc
        rw [show reindentNl level ('\n' :: cs)
            = '\n' :: ' ' :: (List.replicate level ' ' ++ reindentNl level cs) by
          simp [reindentNl]]
        rw [show splitNl ('\n' :: cs) = [] :: splitNl cs by simp [splitNl]]
        cases hsp : splitNl cs with
        | nil => exact absurd hsp (splitNl_ne_nil cs)
        | cons g gs =>
          rw [joinLines]
          rw [ih, hsp]
          simp [List.replicate_succ]
      · rw [show reindentNl level (c :: cs) = c :: reindentNl level cs by
          simp [reindentNl, hc]]
        rw [show splitNl (c :: cs) = consHead c (splitNl cs) by simp [splitNl, hc]]
        rw [joinLines_consHead _ c _ (splitNl_ne_nil cs), ih]
  · refine ⟨List.replicate level '*' ++ " ".toList ++ title ++ " ".toList ++ tags ++
      "\n".toList ++
      List.replicate level ' ' ++ " :PROPERTIES:\n".toList ++
      List.replicate level ' ' ++ " :POSTID: ".toList ++ id ++ "\n".toList ++
      List.replicate level ' ' ++ " :POST_DATE: ".toList ++ date ++ "\n".toList ++
      List.replicate level ' ' ++ " :CATEGORY: ".toList ++ categories ++ "\n".toList ++
      List.replicate level ' ' ++ " :END:\n\n".toList, ?_⟩
    simp [subtreeTemplate, List.append_assoc, List.replicate_succ']

/-! ## C7: date parsing and formatting

`parse_date` strips everything from the first `+` on, strips surrounding
whitespace, parses with the fixed format `%a, %d %b %Y %H:%M:%S` and
re-formats with the requested format.  The C-locale weekday and month
abbreviations are modelled.  CPython's `strptime` stores the weekday the
`%a` directive matched in `tm_wday` (it computes one from the date only
when the format states none, which this fixed format never does), so
`strftime('%a')` echoes the stated weekday; `tm_wday` follows the `time`
module convention Monday = 0. -/

/-- A parsed `time.struct_time` (the fields this program uses). -/
structure Tm where
  year : Nat
  month : Nat
  day : Nat
  hour : Nat
  minute : Nat
  second : Nat
  wday : Nat
  deriving DecidableEq, Repr

/-- C-locale weekday abbreviations, indexed with Monday = 0. -/
def dayAbbrevs : List (List Char) :=
  ["Mon".toList, "Tue".toList, "Wed".toList, "Thu".toList,
   "Fri".toList, "Sat".toList, "Sun".toList]

/-- C-locale month abbreviations, indexed from 0 for January. -/
def monthAbbrevs : List (List Char) :=
  ["Jan".toList, "Feb".toList, "Mar".toList, "Apr".toList, "May".toList,
   "Jun".toList, "Jul".toList, "Aug".toList, "Sep".toList, "Oct".toList,
   "Nov".toList, "Dec".toList]

/-- Numeric value of a decimal digit character. -/
def digitVal (c : Char) : Nat := c.toNat - '0'.toNat

/-- Match one abbreviation from a list, returning its index and the rest
of the input. -/
def matchAbbrevGo (idx : Nat) :
    List (List Char) → List Char → Option (Nat × List Char)
  | [], _ => none
  | n :: ns, s =>
    if n.isPrefixOf s then some (idx, s.drop n.length)
    else matchAbbrevGo (idx + 1) ns s

/-- Parse one or (preferably) two decimal digits, as the `strptime`
patterns for `%d`, `%H`, `%M`, `%S` do. -/
def parseNum2 : List Char → Option (Nat × List Char)
  | [] => none
  | [c1] => if c1.isDigit then some (digitVal c1, []) else none
  | c1 :: c2 :: rest =>
    if c1.isDigit then
      if c2.isDigit then some (10 * digitVal c1 + digitVal c2, rest)
      else some (digitVal c1, c2 :: rest)
    else none

/-- Parse exactly four decimal digits (`%Y`). -/
def parseYear4 : List Char → Option (Nat × List Char)
  | a :: b :: c :: d :: rest =>
    if a.isDigit ∧ b.isDigit ∧ c.isDigit ∧ d.isDigit then
      some (1000 * digitVal a + 100 * digitVal b + 10 * digitVal c + digitVal d, rest)
    else none
  | _ => none

/-- Consume one expected literal character. -/
def expectChar (c : Char) : List Char → Option (List Char)
  | x :: xs => if x = c then some xs else none
  | [] => none

/-- `strptime(s, '%a, %d %b %Y %H:%M:%S')`: weekday abbreviation, comma,
space, day, space, month abbreviation, space, four-digit year, space,
`HH:MM:SS`; the whole input must be consumed and the fields must lie in
the ranges the directive patterns accept. -/
def parseWpDate (s : List Char) : Option Tm := do
  let (wd, s) ← matchAbbrevGo 0 dayAbbrevs s
  let s ← expectChar ',' s
  let s ← expectChar ' ' s
  let (d, s) ← parseNum2 s
  let s ← expectChar ' ' s
  let (mIdx, s) ← matchAbbrevGo 0 monthAbbrevs s
  let s ← expectChar ' ' s
  let (y, s) ← parseYear4 s
  let s ← expectChar ' ' s
  let (h, s) ← parseNum2 s
  let s ← expectChar ':' s
  let (mi, s) ← parseNum2 s
  let s ← expectChar ':' s
  let (sec, s) ← parseNum2 s
  if s = [] ∧ 1 ≤ d ∧ d ≤ 31 ∧ h ≤ 23 ∧ mi ≤ 59 ∧ sec ≤ 61 then
    some ⟨y, mIdx + 1, d, h, mi, sec, wd⟩
  else none

/-- Zero-pad a number to two digits (`%m`, `%d`, `%H`, `%M`, `%S`). -/
def pad2 (n : Nat) : List Char :=
  if n < 10 then '0' :: Nat.toDigits 10 n else Nat.toDigits 10 n

/-- Zero-pad a number to four digits (`%Y`). -/
def pad4 (n : Nat) : List Char :=
  let ds := Nat.toDigits 10 n
  List.replicate (4 - ds.length) '0' ++ ds

/-- `strftime` over the directives this program uses (`%Y %m %d %a %H %M
%S`); other characters are copied verbatim. -/
def strfGo (t : Tm) : List Char → List Char
  | [] => []
  | ['%'] => ['%']
  | '%' :: c :: rest =>
    (match c with
     | 'Y' => pad4 t.year
     | 'm' => pad2 t.month
     | 'd' => pad2 t.day
     | 'H' => pad2 t.hour
     | 'M' => pad2 t.minute
     | 'S' => pad2 t.second
     | 'a' => dayAbbrevs.getD t.wday []
     | c => ['%', c]) ++ strfGo t rest
  | c :: rest => c :: strfGo t rest

/-- `date.split('+')[0]`: everything before the first `+`. -/
def beforePlus (s : List Char) : List Char := s.takeWhile (· ≠ '+')

/-- Python `str.strip()`: drop whitespace at both ends. -/
def pyStrip (s : List Char) : List Char :=
  ((s.dropWhile Char.isWhitespace).reverse.dropWhile Char.isWhitespace).reverse

/-- Embedding of `parse_date(date, date_format)`: `None` maps to `None`
(the function body is skipped), otherwise drop the `+`-prefixed timezone
suffix, strip, `strptime` with the fixed WP format — an unparseable date
raises `ValueError` — and `strftime` with the requested format. -/
def parse_date (date : Option (List Char)) (fmt : List Char) :
    Except PErr (Option (List Char)) :=
  match date with
  | none => .ok none
  | some d =>
    match parseWpDate (pyStrip (beforePlus d)) with
    | none => .error .valueError
    | some tm => .ok (some (strfGo tm fmt))

/-- C7: the export date `Mon, 03 Jan 2011 10:00:00 +0000` formats to
`[2011-01-03 Mon 10:00]` under the combined-mode property-drawer format
and to `2011-01-03` under the buffer-mode file-name-prefix format; the
`+0000` timezone suffix is discarded before parsing (the same input
without it gives the same result). -/
theorem c7_parse_date_formats :
    parse_date (some "Mon, 03 Jan 2011 10:00:00 +0000".toList) "[%Y-%m-%d %a %H:%M]".toList
      = .ok (some "[2011-01-03 Mon 10:00]".toList) ∧
    parse_date (some "Mon, 03 Jan 2011 10:00:00 +0000".toList) "%Y-%m-%d".toList
      = .ok (some "2011-01-03".toList) ∧
    parse_date (some "Mon, 03 Jan 2011 10:00:00".toList) "[%Y-%m-%d %a %H:%M]".toList
      = .ok (some "[2011-01-03 Mon 10:00]".toList) := by
  refine ⟨rfl, rfl, rfl⟩

/-! ## C6: file name derivation (`link_to_file`) -/

/-- ASCII hexadecimal digit test. -/
def isHexDigitC (c : Char) : Bool :=
  c.isDigit || ('a' ≤ c ∧ c ≤ 'f') || ('A' ≤ c ∧ c ≤ 'F')

/-- Value of an ASCII hexadecimal digit. -/
def hexVal (c : Char) : Nat :=
  if c.isDigit then digitVal c
  else if 'a' ≤ c ∧ c ≤ 'f' then c.toNat - 'a'.toNat + 10
  else c.toNat - 'A'.toNat + 10

/-- Embedding of `urllib.parse.unquote` for single-byte escapes: `%XX`
with two hexadecimal digits becomes the character with that code, an
invalid escape is kept verbatim, scanning resumes after what was
consumed.  (Python additionally assembles consecutive escapes into UTF-8
sequences; on the ASCII escapes these names contain, the two agree.) -/
def unquoteL : List Char → List Char
  | '%' :: a :: b :: rest =>
    if isHexDigitC a ∧ isHexDigitC b then
      Char.ofNat (16 * hexVal a + hexVal b) :: unquoteL rest
    else '%' :: unquoteL (a :: b :: rest)
  | c :: rest => c :: unquoteL rest
  | [] => []

/-- `link.split('?p=')`, keeping empty parts. -/
def splitPEq : List Char → List (List Char)
  | '?' :: 'p' :: '=' :: rest => [] :: splitPEq rest
  | c :: rest => consHead c (splitPEq rest)
  | [] => [[]]

/-- `link.split('/')`, keeping empty parts. -/
def splitSlash : List Char → List (List Char)
  | '/' :: rest => [] :: splitSlash rest
  | c :: rest => consHead c (splitSlash rest)
  | [] => [[]]

/-- Python `parts[-2]`: the second-to-last element, or an `IndexError`
(`none`) when there are fewer than two elements. -/
def secondToLast (parts : List (List Char)) : Option (List Char) :=
  if 2 ≤ parts.length then some (parts.getD (parts.length - 2) []) else none

/-- `re.compile('[a-z]+', re.IGNORECASE).match(post_name) is not None`:
the name starts with an ASCII letter (the inputs in scope are ASCII). -/
def startsWithAsciiLetter : List Char → Bool
  | c :: _ => ('a' ≤ c ∧ c ≤ 'z') ∨ ('A' ≤ c ∧ c ≤ 'Z')
  | [] => false

/-- Embedding of `link_to_file(link, post_name)`.  The slug is kept when
it is non-empty, non-null and the letters regex matches at its start;
otherwise the name comes from `link`: the part after the last `?p=` when
present, else the second-to-last `/`-separated segment — an uncaught
`IndexError` when `link` has no `/`.  The chosen name — in the slug case
too — passes through `unquote` and gains the `.org` suffix.  A null
`link` reaches `"?p=" in link`, whose `TypeError` the function catches
and then returns the still-unset `name = None` (`.ok none`; the caller
only crashes later when it uses the name). -/
def link_to_file (link : Option (List Char)) (post_name : Option (List Char)) :
    Except PErr (Option (List Char)) :=
  let name : Option (List Char) :=
    match post_name with
    | some pn =>
      if pn ≠ [] then (if startsWithAsciiLetter pn then some pn else none) else none
    | none => none
  match name with
  | some n => .ok (some (unquoteL n ++ ".org".toList))
  | none =>
    match link with
    | none => .ok none
    | some l =>
      if strIn "?p=".toList l then
        .ok (some (unquoteL ((splitPEq l).getLastD []) ++ ".org".toList))
      else
        match secondToLast (splitSlash l) with
        | some seg => .ok (some (unquoteL seg ++ ".org".toList))
        | none => .error .indexError

/-- The fallback branch of the amended claim: parse the name out of the
link (`?p=` value, else second-to-last path segment), percent-decode,
suffix `.org`. -/
def fallbackFileName : Option (List Char) → Except PErr (Option (List Char))
  | none => .ok none
  | some l =>
    if strIn "?p=".toList l then
      .ok (some (unquoteL ((splitPEq l).getLastD []) ++ ".org".toList))
    else
      match secondToLast (splitSlash l) with
      | some seg => .ok (some (unquoteL seg ++ ".org".toList))
      | none => .error .indexError

/-- C6 as amended, written from the spec wording: prefer the slug when it
is non-empty, non-null and starts with an alphabetic character, otherwise
fall back to the link; the chosen name — the slug included — is
percent-decoded and suffixed with `.org`. -/
def derivedFileName (link : Option (List Char)) (post_name : Option (List Char)) :
    Except PErr (Option (List Char)) :=
  match post_name with
  | some pn =>
    if pn ≠ [] ∧ startsWithAsciiLetter pn then .ok (some (unquoteL pn ++ ".org".toList))
    else fallbackFileName link
  | none => fallbackFileName link

/-- C6 counterexample: the claim reads the slug case as `post_name`
suffixed with `.org` — without percent-decoding, which it grants only to
the two fallback cases.  The slug `a%20b` is non-empty and starts with a
letter, and the code derives `a b.org` (decoded), not `a%20b.org`. -/
theorem c6_counterexample_slug_is_percent_decoded :
    link_to_file (some "http://example.com/a/".toList) (some "a%20b".toList)
      = .ok (some "a b.org".toList) ∧
    ("a b.org".toList == "a%20b.org".toList) = false := by
  exact ⟨rfl, by decide⟩

/-- C6 as amended: the derived name is the percent-decoded slug plus
`.org` when the slug is usable, else the percent-decoded `?p=` value or
second-to-last path segment plus `.org`; in particular
`http://example.com/2011/01/hello-world/` with no slug gives
`hello-world.org` and a link ending in `?p=42` gives `42.org`. -/
theorem c6_file_name_derivation (link : Option (List Char)) (pn : Option (List Char)) :
    link_to_file link pn = derivedFileName link pn ∧
    link_to_file (some "http://example.com/2011/01/hello-world/".toList) none
      = .ok (some "hello-world.org".toList) ∧
    link_to_file (some "http://example.com/?p=42".toList) none
      = .ok (some "42.org".toList) := by
  refine ⟨?_, rfl, rfl⟩
  cases pn with
  | none => cases link <;> rfl
  | some p =>
    by_cases h1 : p = []
    · subst h1
      cases link <;> simp [link_to_file, derivedFileName, fallbackFileName]
    · by_cases h2 : startsWithAsciiLetter p
      · simp [link_to_file, derivedFileName, h1, h2]
      · cases link <;>
          simp [link_to_file, derivedFileName, fallbackFileName, h1, h2]

/-! ## The renderer (`blog_to_org`)

Separate-file mode is modelled as a loop over the post list carrying the
filesystem state (does the target directory exist; which files have been
written) and whether the `org_file` variable has ever been bound.  Per
post the loop joins the tag/category lists, parses the date, renders
`BUFFER_TEMPLATE`, derives the file name — all before the
`os.path.exists` check — and then either creates the directory (first
time, writing nothing) or writes the file.  After the loop,
`org_file.close()` is a no-op on an already closed file but raises
`NameError` when the variable was never bound. -/

/-- `'%s' % value` for an optional string: `None` prints as `None`. -/
def optStr (o : Option (List Char)) : List Char := o.getD "None".toList

/-- Embedding of `BUFFER_TEMPLATE % parts`. -/
def bufferTemplate (id date categories tags title text : List Char) : List Char :=
  "#+POSTID: ".toList ++ id ++ "\n#+DATE: ".toList ++ date ++
  "\n#+OPTIONS: toc:nil num:nil todo:nil pri:nil tags:nil ^:nil TeX:nil\n#+CATEGORY: ".toList ++
  categories ++ "\n#+TAGS: ".toList ++ tags ++ "\n#+TITLE: ".toList ++ title ++
  "\n\n".toList ++ text ++ "\n\n\n".toList

/-- The per-post work of the separate-file branch of `blog_to_org`: join
tags and categories with `', '`, parse the date with the drawer format
(`ValueError` propagates), render `BUFFER_TEMPLATE`, then derive the file
name — with `--prefix-date` the `%s-%s` formatting turns a `None` date or
name into the string `None`, without it the name stays optional (a `None`
name only explodes at `os.path.join` time, in the write branch of the
loop). -/
def renderBufferPost (pfx : Bool) (post : Post) :
    Except PErr (Option (List Char) × List Char) := do
  let tags := joinLines ", ".toList post.tags
  let categories := joinLines ", ".toList post.categories
  let date ← parse_date post.date "[%Y-%m-%d %a %H:%M]".toList
  let out := bufferTemplate (optStr post.id) (optStr date) categories tags
    (optStr post.title) post.text
  if pfx then do
    let d ← parse_date post.date "%Y-%m-%d".toList
    let base ← link_to_file post.link post.post_name
    pure (some (optStr d ++ "-".toList ++ optStr base), out)
  else do
    let base ← link_to_file post.link post.post_name
    pure (base, out)

/-- The output directory and the files written into it. -/
structure FS where
  dirExists : Bool
  files : List (List Char × List Char)
  deriving DecidableEq, Repr

/-- The separate-file loop of `blog_to_org`: `bound` records whether
`org_file` has been assigned.  When the directory does not exist the post
is rendered, the directory is created (`os.mkdir`) and nothing is
written; when it exists, `os.path.join(name, file_name)` — a `TypeError`
on a `None` file name — and the write happen. -/
def sepLoop (pfx : Bool) : FS → Bool → List Post → Except PErr (FS × Bool)
  | fs, bound, [] => .ok (fs, bound)
  | fs, bound, p :: ps => do
    let fo ← renderBufferPost pfx p
    if fs.dirExists then
      match fo.1 with
      | none => .error .typeError
      | some fn => sepLoop pfx ⟨fs.dirExists, fs.files ++ [(fn, fo.2)]⟩ true ps
    else
      sepLoop pfx ⟨true, fs.files⟩ bound ps

/-- Separate-file mode of `blog_to_org` end to end: run the loop from an
unbound `org_file`, then `org_file.close()` — a `NameError` when no file
was ever opened. -/
def blog_to_org_sep (pfx : Bool) (fs0 : FS) (posts : List Post) : Except PErr FS :=
  match sepLoop pfx fs0 false posts with
  | .error e => .error e
  | .ok (fs, true) => .ok fs
  | .ok (_fs, false) => .error .nameError

/-- The per-post work of the combined branch of `blog_to_org`: tags are
joined with `':'` and wrapped in colons, categories with `', '`, the date
parsed with the drawer format, the text reindented, and
`SUBTREE_TEMPLATE` rendered. -/
def combinedPostOutput (level : Nat) (post : Post) : Except PErr (List Char) := do
  let tags := ':' :: (joinLines ":".toList post.tags ++ [':'])
  let categories := joinLines ", ".toList post.categories
  let date ← parse_date post.date "[%Y-%m-%d %a %H:%M]".toList
  pure (subtreeTemplate level (optStr post.title) tags (optStr post.id) (optStr date)
    categories (reindentNl level post.text))

/-- Combined mode of `blog_to_org`: `<name>.org` is opened before the
loop, each subtree is appended in order, and the file is closed — an
empty post list yields an empty file, never a `NameError`. -/
def blog_to_org_combined (name : List Char) (level : Nat) :
    List Post → Except PErr (List Char × List Char)
  | [] => .ok (name ++ ".org".toList, [])
  | p :: ps => do
    let out ← combinedPostOutput level p
    let rest ← blog_to_org_combined name level ps
    .ok (rest.1, out ++ rest.2)

/-- `renderBufferPost` mapped over a list (the renders the loop would
perform, in order). -/
def mapRender (pfx : Bool) : List Post → Except PErr (List (Option (List Char) × List Char))
  | [] => .ok []
  | p :: ps => do
    let v ← renderBufferPost pfx p
    let rest ← mapRender pfx ps
    .ok (v :: rest)

/-- Once the directory exists, every remaining post is written, in order,
to its own file. -/
theorem sepLoop_dirExists (pfx : Bool) :
    ∀ (posts : List Post) (vs : List (Option (List Char) × List Char)) (fs : FS)
      (bound : Bool),
      fs.dirExists = true →
      mapRender pfx posts = .ok vs →
      (∀ v ∈ vs, v.1.isSome = true) →
      sepLoop pfx fs bound posts =
        .ok (⟨true, fs.files ++ vs.map (fun v => (v.1.getD [], v.2))⟩, bound || !posts.isEmpty) := by
  intro posts
  induction posts with
  | nil =>
    intro vs fs bound hdir hm _
    simp only [mapRender, Except.ok.injEq] at hm
    subst hm
    obtain ⟨d, fl⟩ := fs
    simp only [FS.dirExists] at hdir
    subst hdir
    simp [sepLoop]
  | cons p ps ih =>
    intro vs fs bound hdir hm hnames
    simp only [mapRender] at hm
    cases hv : renderBufferPost pfx p with
    | error e => rw [hv] at hm; cases hm
    | ok v =>
      rw [hv] at hm
      cases hrest : mapRender pfx ps with
      | error e => rw [hrest] at hm; cases hm
      | ok vs2 =>
        rw [hrest] at hm
        simp only [exceptBind_ok, Except.ok.injEq] at hm
        subst hm
        have hvs : v.1.isSome = true := hnames v (List.mem_cons_self v vs2)
        obtain ⟨fn, hfn⟩ := Option.isSome_iff_exists.mp hvs
        simp only [sepLoop, hv, exceptBind_ok, hdir, if_true, hfn]
        have := ih vs2 ⟨true, fs.files ++ [(fn, v.2)]⟩ true rfl
          hrest (fun w hw => hnames w (List.mem_cons_of_mem v hw))
        rw [this]
        simp [hfn, List.append_assoc]

/-- C4: in separate-file mode, when the target directory does not exist
as the first post is rendered, the directory is created, the first post
is written to no file, and every following post is written to its own
file inside the directory, in order.  The hypotheses say that every
post's render succeeds (date parses, file name derivable) — the mode of
operation the claim describes. -/
theorem c4_first_post_skipped_rest_written
    (pfx : Bool) (p : Post) (rest : List Post)
    (vs : List (Option (List Char) × List Char))
    (hp : ∃ v, renderBufferPost pfx p = .ok v)
    (hrest : mapRender pfx rest = .ok vs)
    (hnames : ∀ v ∈ vs, v.1.isSome = true) :
    sepLoop pfx ⟨false, []⟩ false (p :: rest) =
      .ok (⟨true, vs.map (fun v => (v.1.getD [], v.2))⟩, !rest.isEmpty) := by
  obtain ⟨v, hv⟩ := hp
  simp only [sepLoop, hv, exceptBind_ok, FS.dirExists, Bool.false_eq_true, if_false]
  have := sepLoop_dirExists pfx rest vs ⟨true, []⟩ false rfl hrest hnames
  rw [this]
  simp

/-- First witness post for C4 (the skipped one). -/
def c4PostA : Post :=
  { title := none, link := some "w/x/".toList, date := none, author := none
    id := none, post_name := none, text := "a".toList, tags := [], categories := [] }

/-- Second witness post for C4 (the written one). -/
def c4PostB : Post :=
  { title := none, link := some "w/y/".toList, date := none, author := none
    id := none, post_name := none, text := "b".toList, tags := [], categories := [] }

/-- Witness for C4: two posts into a previously missing directory — the
first only creates the directory, the second is written as `y.org`. -/
theorem c4_first_post_skipped_rest_written_witness :
    sepLoop false ⟨false, []⟩ false [c4PostA, c4PostB] =
      .ok (⟨true, [("y.org".toList,
        bufferTemplate "None".toList "None".toList [] [] "None".toList "b".toList)]⟩,
        true) := by
  exact c4_first_post_skipped_rest_written false c4PostA [c4PostB]
    [(some "y.org".toList,
      bufferTemplate "None".toList "None".toList [] [] "None".toList "b".toList)]
    ⟨(some "x.org".toList,
      bufferTemplate "None".toList "None".toList [] [] "None".toList "a".toList), rfl⟩
    rfl
    (by
      intro v hv
      rw [List.mem_singleton] at hv
      subst hv
      rfl)

/-- C10: whenever the separate-file loop opens no file — the post list is
empty, or the directory did not pre-exist and the list holds exactly one
(successfully rendered) post — the trailing `org_file.close()` raises an
uncaught `NameError`; combined mode on an empty list, by contrast,
produces the (empty) `<name>.org` file, so the empty-input guarantee
holds only there. -/
theorem c10_unbound_close_raises_name_error
    (pfx : Bool) (fs0 : FS) (posts : List Post) (name : List Char) (level : Nat)
    (h : posts = [] ∨
      (fs0.dirExists = false ∧ ∃ p v, posts = [p] ∧ renderBufferPost pfx p = .ok v)) :
    blog_to_org_sep pfx fs0 posts = .error .nameError ∧
    blog_to_org_combined name level [] = .ok (name ++ ".org".toList, []) := by
  constructor
  · rcases h with rfl | ⟨hdir, p, v, rfl, hv⟩
    · simp [blog_to_org_sep, sepLoop]
    · simp [blog_to_org_sep, sepLoop, hv, hdir]
  · rfl

/-- Witness for C10: the empty post list with an existing directory. -/
theorem c10_unbound_close_raises_name_error_witness :
    blog_to_org_sep false ⟨true, []⟩ [] = .error .nameError ∧
    blog_to_org_combined "org-posts".toList 1 [] =
      .ok ("org-posts".toList ++ ".org".toList, []) :=
  c10_unbound_close_raises_name_error false ⟨true, []⟩ [] "org-posts".toList 1 (Or.inl rfl)
